import Mathlib

/-!
Verification of the toolchain resolution and acquisition engine of the `bu`
build-tool wrapper.  The definitions below are a shallow embedding of the
Rust sources:

* `src/tool_cache.rs` — `ToolCache` (cache paths, `is_installed`, `install`)
* `src/toolchain.rs`  — the providers (`HostProvider`, `UrlProvider`,
  `CargoBuildProvider`, `ChainProvider`) and `ToolError`
* `src/config.rs`     — `ToolDefinition`, `Config::get_tool_provider`
* `src/main.rs`       — `get_provider` (fallback to the Host-only chain)

Strings are modelled as `List Char` (`Str`), filesystem paths as lists of
path components (`Path`).  All external effects (filesystem existence
checks, `which` lookups, HTTP GET, file writes, subprocess execution,
SHA-256 hashing) are supplied by a `World` of oracles; every observable
side effect performed by the embedded code is additionally recorded in a
`Trace` of `Event`s, so that theorems can state that no network request or
cache write happened.  Compile-time `cfg!` flags of the Rust sources are
modelled by a `Plat` record of booleans threaded through the definitions.
-/

/-- Strings of the model: Rust `String` / `&str` as a list of characters. -/
abbrev Str := List Char

/-- Filesystem paths (`PathBuf`) as a list of path components. -/
abbrev FsPath := List Str

/-- Compile-time platform flags: `cfg!(windows)` / `cfg!(target_os = "macos")`
/ `cfg!(target_arch = "aarch64")` of the Rust sources. -/
structure Plat where
  windows : Bool
  macos : Bool
  aarch64 : Bool
deriving DecidableEq

/-- `ToolError` from `src/toolchain.rs` lines 10-23.  `io` and `network`
carry the rendered error message. -/
inductive ToolError where
  | notFound (tool : Str)
  | io (msg : Str)
  | network (msg : Str)
  | strategyFailure (strategy : Str) (msg : Str)
deriving DecidableEq

/-- Observable side effects of the embedded code, recorded in order. -/
inductive Event where
  | madeDir (p : FsPath)
  | netGet (url : Str)
  | wroteFile (p : FsPath)
  | ranCargo (gitUrl : Str) (rev : Str) (offline : Bool)
deriving DecidableEq

abbrev Trace := List Event

/-- An HTTP response: status code and body bytes (bytes as `Nat`s). -/
structure Http where
  status : Nat
  body : List Nat
deriving DecidableEq

/-- The oracle for all external effects.  Each field gives the outcome of
one kind of I/O operation the Rust code performs; `Except Str α` models
`io::Result<α>` with the rendered error message. -/
structure World where
  plat : Plat
  /-- `dirs::home_dir()` (assumed present for the resolution flow). -/
  homeDir : FsPath
  /-- `Path::exists` -/
  pathExists : FsPath → Bool
  /-- `which::which` -/
  whichTool : Str → Option FsPath
  /-- `reqwest::blocking::get` (transport errors are `.error`). -/
  httpGet : Str → Except Str Http
  /-- `fs::copy` from a `file://` source; returns the copied bytes. -/
  copyFile : Str → FsPath → Except Str (List Nat)
  /-- `fs::copy` from a built binary into the cache. -/
  copyBin : FsPath → FsPath → Except Str Unit
  /-- zstd stream decoding of a downloaded body. -/
  zstdDecode : List Nat → Except Str (List Nat)
  /-- `File::create` + `io::copy` writing bytes to a destination. -/
  writeFile : FsPath → List Nat → Except Str Unit
  /-- `fs::create_dir_all` -/
  mkdirAll : FsPath → Except Str Unit
  /-- `fs::metadata` + `set_permissions` (0o755) on POSIX. -/
  setPerms : FsPath → Except Str Unit
  /-- SHA-256 digest of a byte string (uninterpreted hash oracle). -/
  sha256 : List Nat → List Nat
  /-- `cargo install --git … --rev …` : spawn error or exit success flag. -/
  cargoStatus : Str → Str → Bool → Except Str Bool
  /-- `tempfile::tempdir()` root used by the cargo build. -/
  tempDir : FsPath

/-- Rust `file_stem` of a file name: the portion before the final `.`,
except that a name whose only `.` is its first character has no extension
(so it is its own stem). -/
def fileStem (name : Str) : Str :=
  match name.reverse.dropWhile (fun c => c ≠ '.') with
  | [] => name
  | _ :: rest => if rest = [] then name else rest.reverse

/-- Rust `PathBuf::set_extension` on a file name: replace (or, when the
name has no extension, append) the extension.  An empty `ext` removes the
extension, as in Rust. -/
def setExtension (name : Str) (ext : Str) : Str :=
  if ext = [] then fileStem name else fileStem name ++ '.' :: ext

/-- `set_extension` applied to the last component of a path
(`PathBuf::set_extension` leaves the directory part untouched). -/
def setLastExtension (p : FsPath) (ext : Str) : FsPath :=
  match p with
  | [] => []
  | [x] => [setExtension x ext]
  | x :: xs => x :: setLastExtension xs ext

/-- `ToolCache` from `src/tool_cache.rs`. -/
structure ToolCache where
  baseDir : FsPath
deriving DecidableEq

/-- `ToolCache::new` (`src/tool_cache.rs` lines 12-17): `~/.bu/cache`. -/
def ToolCache.new (w : World) : ToolCache :=
  ⟨w.homeDir ++ [ ".bu".data, "cache".data ]⟩

/-- `ToolCache::get_tool_path` (`src/tool_cache.rs` lines 28-36):
`<base>/<tool>/<version>/<tool>`, with `set_extension("exe")` applied on
Windows.  A pure function of its arguments (no I/O). -/
def ToolCache.getToolPath (c : ToolCache) (plat : Plat) (toolName version : Str) : FsPath :=
  if plat.windows then
    setLastExtension (c.baseDir ++ [toolName, version, toolName]) "exe".data
  else
    c.baseDir ++ [toolName, version, toolName]

/-- `ToolCache::is_installed` (`src/tool_cache.rs` lines 38-46):
an existence check of the tool path. -/
def ToolCache.isInstalled (c : ToolCache) (w : World) (toolName version : Str) : Bool :=
  w.pathExists (c.getToolPath w.plat toolName version)

/-- `ToolCache::install` (`src/tool_cache.rs` lines 48-70): create the
parent directories, run the caller-supplied writer, then on POSIX set the
permission bits.  Not transactional: the writer's partial effects remain
in the trace even when it fails. -/
def ToolCache.install (c : ToolCache) (w : World) (toolName version : Str)
    (downloader : FsPath → Except Str Unit × Trace) : Except Str FsPath × Trace :=
  match w.mkdirAll (c.getToolPath w.plat toolName version).dropLast with
  | .error e => (.error e, [])
  | .ok _ =>
    match downloader (c.getToolPath w.plat toolName version) with
    | (.error e, tr) => (.error e, .madeDir (c.getToolPath w.plat toolName version).dropLast :: tr)
    | (.ok _, tr) =>
      if w.plat.windows then
        (.ok (c.getToolPath w.plat toolName version),
          .madeDir (c.getToolPath w.plat toolName version).dropLast :: tr)
      else
        match w.setPerms (c.getToolPath w.plat toolName version) with
        | .error e => (.error e, .madeDir (c.getToolPath w.plat toolName version).dropLast :: tr)
        | .ok _ => (.ok (c.getToolPath w.plat toolName version),
            .madeDir (c.getToolPath w.plat toolName version).dropLast :: tr)

/-- `ToolContext` from `src/toolchain.rs` lines 25-29. -/
structure ToolContext where
  offline : Bool
  cache : ToolCache

/-- The `ToolProvider::provide` capability (`src/toolchain.rs` line 32):
tool name, version and context to a path or error, together with the
trace of performed effects. -/
abbrev Provider := Str → Str → ToolContext → Except ToolError FsPath × Trace

example : fileStem "foo.bar".data = "foo".data := by decide
example : setExtension "foo.bar".data "exe".data = "foo.exe".data := by decide
example : setExtension "buck2".data "exe".data = "buck2.exe".data := by decide
example : setExtension ".hidden".data "exe".data = ".hidden.exe".data := by decide
example : setExtension "a.b".data [] = "a".data := by decide

/-- `HostProvider::provide` (`src/toolchain.rs` lines 38-50): look the tool
up on the system search path; ignore the version. -/
def hostProvide (w : World) : Provider := fun tool _version _ctx =>
  match w.whichTool tool with
  | some p => (.ok p, [])
  | none => (.error (.notFound tool), [])

/-- Fueled worker for `str::replace`: replace every leftmost,
non-overlapping occurrence of `pat` by `repl`.  The fuel is an upper bound
on the input length, so `replaceGo pat repl s.length s` computes the
replacement; fuel keeps the recursion structural. -/
def replaceGo (pat repl : Str) : Nat → Str → Str
  | _, [] => []
  | 0, s => s
  | fuel + 1, a :: rest =>
    if pat ≠ [] ∧ pat.isPrefixOf (a :: rest) then
      repl ++ replaceGo pat repl fuel ((a :: rest).drop pat.length)
    else
      a :: replaceGo pat repl fuel rest

/-- Rust `str::replace pat -> repl` (global, leftmost, non-overlapping). -/
def replaceAll (pat repl s : Str) : Str :=
  replaceGo pat repl s.length s

/-- The platform identifier selected by `UrlProvider::resolve_url`
(`src/toolchain.rs` lines 122-128) from the compile-time `cfg!` flags. -/
def platformId (plat : Plat) : Str :=
  if plat.macos then
    if plat.aarch64 then "aarch64-apple-darwin".data else "x86_64-apple-darwin".data
  else if plat.windows then "x86_64-pc-windows-msvc".data
  else "x86_64-unknown-linux-musl".data

/-- `UrlProvider::resolve_url` (`src/toolchain.rs` lines 120-134):
substitute `{version}`, then `{platform}`, in the URL template. -/
def resolveUrl (plat : Plat) (urlTemplate version : Str) : Str :=
  replaceAll "{platform}".data (platformId plat)
    (replaceAll "{version}".data version urlTemplate)

/-- Rust `str::trim_start_matches`: repeatedly strip the prefix `pat`. -/
def trimStartMatches (pat : Str) (s : Str) : Str :=
  if h : pat ≠ [] ∧ pat.isPrefixOf s then
    trimStartMatches pat (s.drop pat.length)
  else s
termination_by s.length
decreasing_by
  have hlen : pat.length ≤ s.length :=
    List.IsPrefix.length_le ( List.isPrefixOf_iff_prefix.mp h.2)
  have hpos : 0 < pat.length := List.length_pos.mpr h.1
  simp only [List.length_drop]
  omega

/-- `reqwest` `StatusCode::is_success`: 2xx. -/
def isSuccessStatus (st : Nat) : Bool := 200 ≤ st && st ≤ 299

/-- The hexadecimal digit characters used by `hex::encode` (lowercase). -/
def hexDigitChar (n : Nat) : Char :=
  match n with
  | 0 => '0' | 1 => '1' | 2 => '2' | 3 => '3' | 4 => '4'
  | 5 => '5' | 6 => '6' | 7 => '7' | 8 => '8' | 9 => '9'
  | 10 => 'a' | 11 => 'b' | 12 => 'c' | 13 => 'd' | 14 => 'e'
  | _ => 'f'

/-- `hex::encode`: lowercase hexadecimal rendering of a byte string. -/
def hexEncode (bytes : List Nat) : Str :=
  (bytes.map (fun b => [hexDigitChar (b / 16 % 16), hexDigitChar (b % 16)])).flatten

/-- Boolean substring test, modelling Rust `str::contains`. -/
def containsSubstr (pat : Str) : Str → Bool
  | [] => pat.isEmpty
  | s@(_ :: rest) => pat.isPrefixOf s || containsSubstr pat rest

/-- `UrlProvider` configuration (`src/toolchain.rs` lines 52-56). -/
structure UrlSpec where
  urlTemplate : Str
  sha256 : Option Str
deriving DecidableEq

/-- The fetch part of the closure passed to `cache.install` by
`UrlProvider::provide` (`src/toolchain.rs` lines 76-95): copy a `file://`
source, or issue a blocking GET, check the HTTP status, decompress `.zst`
payloads, and write the bytes to `destPath`.  Returns the bytes written
(the checksum step reads them back from the freshly written file). -/
def fetchBytes (w : World) (url : Str) (destPath : FsPath) : Except Str (List Nat) × Trace :=
  if ("file://".data).isPrefixOf url then
    match w.copyFile (trimStartMatches "file://".data url) destPath with
    | .ok bytes => (.ok bytes, [.wroteFile destPath])
    | .error e => (.error e, [])
  else
    match w.httpGet url with
    | .error e => (.error e, [.netGet url])
    | .ok resp =>
      if isSuccessStatus resp.status then
        match (if (".zst".data).isSuffixOf url then w.zstdDecode resp.body else .ok resp.body) with
        | .error e => (.error e, [.netGet url])
        | .ok bytes =>
          match w.writeFile destPath bytes with
          | .error e => (.error e, [.netGet url])
          | .ok _ => (.ok bytes, [.netGet url, .wroteFile destPath])
      else
        (.error ("Download failed: ".data ++ (Nat.repr resp.status).data), [.netGet url])

/-- The full closure passed to `cache.install` by `UrlProvider::provide`
(`src/toolchain.rs` lines 76-109): fetch, then — when a sha256 was
declared — hash the freshly written bytes, `hex::encode` the digest and
compare it with the declared digest by string equality. -/
def urlDownloader (w : World) (up : UrlSpec) (url : Str) (destPath : FsPath) :
    Except Str Unit × Trace :=
  match fetchBytes w url destPath with
  | (.error e, tr) => (.error e, tr)
  | (.ok bytes, tr) =>
    match up.sha256 with
    | none => (.ok (), tr)
    | some expected =>
      if hexEncode (w.sha256 bytes) = expected then (.ok (), tr)
      else
        (.error ("Checksum mismatch: expected ".data ++ expected ++ ", got ".data ++
          hexEncode (w.sha256 bytes)), tr)

/-- `UrlProvider::provide` (`src/toolchain.rs` lines 58-118): cache
short-circuit, URL resolution, the offline gate (only `file://` URLs may
proceed offline), then the download inside `cache.install`, with install
errors wrapped as `StrategyFailure("UrlProvider", …)`. -/
def urlProvide (w : World) (up : UrlSpec) : Provider := fun tool version ctx =>
  if ctx.cache.isInstalled w tool version then
    (.ok (ctx.cache.getToolPath w.plat tool version), [])
  else
    if ctx.offline && !(("file://".data).isPrefixOf (resolveUrl w.plat up.urlTemplate version)) then
      (.error (.strategyFailure "UrlProvider".data
        "Offline mode: cannot download from network".data), [])
    else
      match ctx.cache.install w tool version
          (urlDownloader w up (resolveUrl w.plat up.urlTemplate version)) with
      | (.ok p, tr) => (.ok p, tr)
      | (.error e, tr) =>
        -- the Rust `map_err` tests for "Checksum mismatch" but produces the
        -- same wrapping in both branches (lines 110-116)
        if containsSubstr "Checksum mismatch".data e then
          (.error (.strategyFailure "UrlProvider".data e), tr)
        else
          (.error (.strategyFailure "UrlProvider".data e), tr)

/-- `CargoBuildProvider` configuration (`src/toolchain.rs` lines 138-142). -/
structure CargoSpec where
  gitUrl : Str
  binName : Str
deriving DecidableEq

/-- The closure passed to `cache.install` by `CargoBuildProvider::provide`
(`src/toolchain.rs` lines 156-188): run `cargo install --git … --rev …`
(with `--offline` passed through), check the built binary exists under the
ephemeral root (with the native executable suffix via `with_extension`),
and copy it into the cache.  The path rendering inside the
binary-not-found message is abstracted away. -/
def cargoDownloader (w : World) (cs : CargoSpec) (version : Str) (offline : Bool)
    (destPath : FsPath) : Except Str Unit × Trace :=
  match w.cargoStatus cs.gitUrl version offline with
  | .error e => (.error e, [.ranCargo cs.gitUrl version offline])
  | .ok false => (.error "Cargo install failed".data, [.ranCargo cs.gitUrl version offline])
  | .ok true =>
    if w.pathExists (w.tempDir ++ [ "bin".data,
        setExtension cs.binName (if w.plat.windows then "exe".data else [])]) then
      match w.copyBin (w.tempDir ++ [ "bin".data,
          setExtension cs.binName (if w.plat.windows then "exe".data else [])]) destPath with
      | .error e => (.error e, [.ranCargo cs.gitUrl version offline])
      | .ok _ => (.ok (), [.ranCargo cs.gitUrl version offline, .wroteFile destPath])
    else
      (.error "Binary not found after build".data, [.ranCargo cs.gitUrl version offline])

/-- `CargoBuildProvider::provide` (`src/toolchain.rs` lines 144-190):
cache short-circuit, then require `cargo` on the host (absence is an
immediate `StrategyFailure("CargoBuildProvider", "Cargo not found")`),
then build inside `cache.install` with errors wrapped. -/
def cargoProvide (w : World) (cs : CargoSpec) : Provider := fun tool version ctx =>
  if ctx.cache.isInstalled w tool version then
    (.ok (ctx.cache.getToolPath w.plat tool version), [])
  else
    match w.whichTool "cargo".data with
    | none => (.error (.strategyFailure "CargoBuildProvider".data "Cargo not found".data), [])
    | some _ =>
      match ctx.cache.install w tool version (cargoDownloader w cs version ctx.offline) with
      | (.ok p, tr) => (.ok p, tr)
      | (.error e, tr) => (.error (.strategyFailure "CargoBuildProvider".data e), tr)

/-- The loop of `ChainProvider::provide` (`src/toolchain.rs` lines
204-218): try the providers in order, short-circuit on the first success,
and keep the most recent failure in `lastError`. -/
def chainLoop (tool version : Str) (ctx : ToolContext) :
    List Provider → ToolError → Except ToolError FsPath × Trace
  | [], lastError => (.error lastError, [])
  | p :: ps, lastError =>
    match p tool version ctx with
    | (.ok path, tr) => (.ok path, tr)
    | (.error e, tr) =>
      match chainLoop tool version ctx ps e with
      | (r, tr') => (r, tr ++ tr')

/-- `ChainProvider::provide`: the loop started with `NotFound` as the
initial `last_error`. -/
def chainProvide (providers : List Provider) : Provider := fun tool version ctx =>
  chainLoop tool version ctx providers (.notFound tool)

example : resolveUrl ⟨false, true, true⟩ "https://x/{platform}/b-{version}".data "1.0".data
    = "https://x/aarch64-apple-darwin/b-1.0".data := by decide
example : hexEncode [171, 0, 255] = "ab00ff".data := by decide
example : containsSubstr "Checksum mismatch".data
    "Checksum mismatch: expected ab, got cd".data = true := by decide

/-- `ToolDefinition` from `src/config.rs` lines 14-23. -/
structure ToolDefinition where
  name : Str
  version : Str
  urlTemplate : Option Str
  sha256 : Option Str
  gitUrl : Option Str
  strategies : List Str
deriving DecidableEq

/-- The concrete provider built for one strategy name: the closed set of
provider variants a chain can hold (`Box<dyn ToolProvider>` instances
constructed by `Config::get_tool_provider`). -/
inductive ProviderSpec where
  | host
  | url (urlTemplate : Str) (sha256 : Option Str)
  | source (gitUrl : Str) (binName : Str)
deriving DecidableEq

/-- `Config` from `src/config.rs` lines 25-28, its `HashMap` modelled as an
association list keyed by tool name. -/
structure Config where
  tools : List (Str × ToolDefinition)

/-- `self.tools.get(tool_name)` on the association list. -/
def Config.lookupTool (cfg : Config) (toolName : Str) : Option ToolDefinition :=
  (cfg.tools.find? (fun kv => kv.1 = toolName)).map (fun kv => kv.2)

/-- `Config::get_tool_provider` (`src/config.rs` lines 112-143): translate
the definition's strategies, in declared order, into providers; `"host"`
needs nothing, `"url"` requires `url_template` (carrying `sha256`),
`"source"` requires `git_url` (binary named after the tool); a strategy
whose required field is absent, or an unrecognized name, contributes
nothing.  `None` when the tool has no definition. -/
def Config.getToolProvider (cfg : Config) (toolName : Str) : Option (List ProviderSpec) :=
  match cfg.lookupTool toolName with
  | none => none
  | some td =>
    some (td.strategies.foldl (fun acc strategy =>
      if strategy = "host".data then acc ++ [ProviderSpec.host]
      else if strategy = "url".data then
        match td.urlTemplate with
        | some t => acc ++ [ProviderSpec.url t td.sha256]
        | none => acc
      else if strategy = "source".data then
        match td.gitUrl with
        | some g => acc ++ [ProviderSpec.source g toolName]
        | none => acc
      else acc) [])

/-- `get_provider` from `src/main.rs` lines 199-205: the configured chain,
or the single-provider Host chain when the tool has no definition. -/
def getProvider (cfg : Config) (toolName : Str) : List ProviderSpec :=
  (cfg.getToolProvider toolName).getD [ProviderSpec.host]

/-- Instantiation of one `ProviderSpec` as a running provider. -/
def ProviderSpec.toProvider (w : World) : ProviderSpec → Provider
  | .host => hostProvide w
  | .url t sha => urlProvide w ⟨t, sha⟩
  | .source g bin => cargoProvide w ⟨g, bin⟩

/-- Step 4 of `resolve_tool` (`src/main.rs` lines 145-157): assemble the
chain for the tool via `get_provider`, build the cache at `~/.bu/cache`,
and run `ChainProvider::provide` with the offline flag. -/
def resolveToolPath (w : World) (cfg : Config) (toolName version : Str) (offline : Bool) :
    Except ToolError FsPath × Trace :=
  chainProvide ((getProvider cfg toolName).map (ProviderSpec.toProvider w))
    toolName version ⟨offline, ToolCache.new w⟩

/-! ### Chain iteration lemmas -/

/-- If every provider in `qs` fails, prepending `qs` to a chain leaves the
result of the remaining providers unchanged up to the initial error and
prepends the failing providers' traces. -/
theorem chainLoop_all_fail_append (tool version : Str) (ctx : ToolContext)
    (qs rest : List Provider)
    (hqs : ∀ q ∈ qs, ∃ e tr, q tool version ctx = (.error e, tr)) (init : ToolError) :
    ∃ init' tr₀,
      chainLoop tool version ctx (qs ++ rest) init =
        ((chainLoop tool version ctx rest init').1,
          tr₀ ++ (chainLoop tool version ctx rest init').2) := by
  induction qs generalizing init with
  | nil => exact ⟨init, [], by simp [chainLoop]⟩
  | cons q qs ih =>
    obtain ⟨e, tr, hq⟩ := hqs q (List.mem_cons_self q qs)
    obtain ⟨init', tr₀, hrec⟩ :=
      ih (fun p hp => hqs p (List.mem_cons_of_mem q hp)) e
    refine ⟨init', tr ++ tr₀, ?_⟩
    simp [chainLoop, hq, hrec]

/-- A successful provider at the head of the remaining chain
short-circuits with exactly its own result and trace. -/
theorem chainLoop_head_success (tool version : Str) (ctx : ToolContext)
    (p : Provider) (rest : List Provider) (r : FsPath) (tr : Trace)
    (hp : p tool version ctx = (.ok r, tr)) (init : ToolError) :
    chainLoop tool version ctx (p :: rest) init = (.ok r, tr) := by
  simp [chainLoop, hp]

/-- After a prefix of failing providers, a succeeding provider determines
the whole chain outcome, independently of the suffix and of the initial
error. -/
theorem chainLoop_success_suffix_irrelevant (tool version : Str) (ctx : ToolContext)
    (pre : List Provider) (p : Provider) (r : FsPath) (tr : Trace)
    (hpre : ∀ q ∈ pre, ∃ e etr, q tool version ctx = (.error e, etr))
    (hp : p tool version ctx = (.ok r, tr)) (suf : List Provider) (init : ToolError) :
    chainLoop tool version ctx (pre ++ p :: suf) init =
        chainLoop tool version ctx (pre ++ [p]) init ∧
      (chainLoop tool version ctx (pre ++ p :: suf) init).1 = .ok r := by
  induction pre generalizing init with
  | nil => simp [chainLoop, hp]
  | cons q pre ih =>
    obtain ⟨e, etr, hq⟩ := hpre q (List.mem_cons_self q pre)
    have ih' := ih (fun q' hq' => hpre q' (List.mem_cons_of_mem q hq')) e
    simp only [List.cons_append, chainLoop, hq]
    simp only [List.append_eq]
    rw [ih'.1]
    refine ⟨rfl, ?_⟩
    rw [← ih'.1]
    exact ih'.2

/-- C1 — For every Chain with providers `[P1,…,Pn]` and every tool,
version and context, if `Pi` is the first provider whose `provide` call
succeeds, then `Chain.provide` returns exactly `Pi`'s result, and no
provider after `Pi` is invoked: the result and the effect trace coincide
with those of the chain truncated right after `Pi`, whatever the suffix
of later providers is. -/
theorem chain_first_success_short_circuits (tool version : Str) (ctx : ToolContext)
    (pre suf : List Provider) (p : Provider) (r : FsPath) (tr : Trace)
    (hpre : ∀ q ∈ pre, ∃ e etr, q tool version ctx = (.error e, etr))
    (hp : p tool version ctx = (.ok r, tr)) :
    (chainProvide (pre ++ p :: suf) tool version ctx).1 = .ok r ∧
      chainProvide (pre ++ p :: suf) tool version ctx =
        chainProvide (pre ++ [p]) tool version ctx := by
  have h := chainLoop_success_suffix_irrelevant tool version ctx pre p r tr hpre hp suf
    (.notFound tool)
  exact ⟨h.2, h.1⟩


/-- A mock provider that always fails with a fixed `Io` error (as the unit
tests of `src/toolchain.rs` do with `MockProvider(false)`). -/
def mockFail1 : Provider := fun _ _ _ => (.error (.io "boom1".data), [])

/-- A second always-failing mock provider with a distinguishable error. -/
def mockFail2 : Provider := fun _ _ _ => (.error (.io "boom2".data), [])

/-- A mock provider that always succeeds (`MockProvider(true)`). -/
def mockOk : Provider := fun _ _ _ => (.ok [ "found".data ], [])

/-- A trivial context for the mock chains. -/
def mockCtx : ToolContext := ⟨false, ⟨[]⟩⟩

/-- Witness for C1: in the chain `[fail, ok, fail]` the second provider
short-circuits and the trailing provider is never consulted. -/
theorem chain_first_success_short_circuits_witness :
    (chainProvide [mockFail1, mockOk, mockFail2] "t".data "1".data mockCtx).1 =
        .ok [ "found".data ] ∧
      chainProvide [mockFail1, mockOk, mockFail2] "t".data "1".data mockCtx =
        chainProvide [mockFail1, mockOk] "t".data "1".data mockCtx :=
  chain_first_success_short_circuits "t".data "1".data mockCtx [mockFail1] [mockFail2]
    mockOk [ "found".data ] []
    (by
      intro q hq
      rw [List.mem_singleton] at hq
      subst hq
      exact ⟨.io "boom1".data, [], rfl⟩)
    rfl

/-- C2 — For every Chain in which every provider fails, `Chain.provide`
fails with the error returned by the last provider tried, and an empty
Chain fails immediately with `NotFound` for the requested tool (with no
effects performed). -/
theorem chain_all_fail_propagates_last :
    (∀ (tool version : Str) (ctx : ToolContext),
        chainProvide [] tool version ctx = (.error (.notFound tool), [])) ∧
      ∀ (tool version : Str) (ctx : ToolContext) (qs : List Provider) (p : Provider)
        (e : ToolError) (etr : Trace),
        (∀ q ∈ qs, ∃ e' tr', q tool version ctx = (.error e', tr')) →
        p tool version ctx = (.error e, etr) →
        (chainProvide (qs ++ [p]) tool version ctx).1 = .error e := by
  constructor
  · intro tool version ctx
    rfl
  · intro tool version ctx qs p e etr hqs hp
    obtain ⟨init', tr₀, heq⟩ :=
      chainLoop_all_fail_append tool version ctx qs [p] hqs (.notFound tool)
    simp only [chainProvide, heq, chainLoop, hp]

/-- Witness for C2: the empty chain yields `NotFound`, and in the chain
`[fail₁, fail₂]` the surfaced error is `fail₂`'s, not `fail₁`'s. -/
theorem chain_all_fail_propagates_last_witness :
    chainProvide [] "t".data "1".data mockCtx =
        (.error (.notFound "t".data), []) ∧
      (chainProvide [mockFail1, mockFail2] "t".data "1".data mockCtx).1 =
        .error (.io "boom2".data) :=
  ⟨chain_all_fail_propagates_last.1 "t".data "1".data mockCtx,
    chain_all_fail_propagates_last.2 "t".data "1".data mockCtx [mockFail1] mockFail2
      (.io "boom2".data) []
      (by
        intro q hq
        rw [List.mem_singleton] at hq
        subst hq
        exact ⟨.io "boom1".data, [], rfl⟩)
      rfl⟩

/-! ### Chain assembly (C6, C10) -/

/-- The claimed strategy-name-to-provider mapping: `"host"` → Host with no
parameters, `"url"` → Url requiring `url_template` and carrying `sha256`,
`"source"` → Source requiring `git_url` with the binary named after the
tool; anything else (missing required field or unrecognized name) maps to
nothing. -/
def strategyToSpec (td : ToolDefinition) (toolName : Str) (strategy : Str) :
    Option ProviderSpec :=
  if strategy = "host".data then some ProviderSpec.host
  else if strategy = "url".data then
    td.urlTemplate.map (fun t => ProviderSpec.url t td.sha256)
  else if strategy = "source".data then
    td.gitUrl.map (fun g => ProviderSpec.source g toolName)
  else none

/-- The strategy fold of `Config::get_tool_provider` appends exactly the
providers of the per-strategy mapping, in order. -/
theorem strategy_foldl_eq_filterMap (td : ToolDefinition) (toolName : Str)
    (l : List Str) (acc : List ProviderSpec) :
    l.foldl (fun acc strategy =>
      if strategy = "host".data then acc ++ [ProviderSpec.host]
      else if strategy = "url".data then
        match td.urlTemplate with
        | some t => acc ++ [ProviderSpec.url t td.sha256]
        | none => acc
      else if strategy = "source".data then
        match td.gitUrl with
        | some g => acc ++ [ProviderSpec.source g toolName]
        | none => acc
      else acc) acc = acc ++ l.filterMap (strategyToSpec td toolName) := by
  induction l generalizing acc with
  | nil => simp
  | cons s l ih =>
    rw [List.foldl_cons, ih, List.filterMap_cons]
    by_cases h1 : s = "host".data
    · simp [strategyToSpec, h1]
    · by_cases h2 : s = "url".data
      · cases hu : td.urlTemplate with
        | none => simp [strategyToSpec, h1, h2, hu]
        | some t => simp [strategyToSpec, h1, h2, hu]
      · by_cases h3 : s = "source".data
        · cases hg : td.gitUrl with
          | none => simp [strategyToSpec, h1, h2, h3, hg]
          | some g => simp [strategyToSpec, h1, h2, h3, hg]
        · simp [strategyToSpec, h1, h2, h3]

/-- C6 — Chain assembly maps each strategy name of a `ToolDefinition` to a
concrete provider in the definition's declared order (`"host"` → Host,
`"url"` → Url requiring `url_template` and carrying `sha256`, `"source"` →
Source requiring `git_url` with the binary named after the tool); a
strategy whose required field is absent (or whose name is unrecognized) is
silently dropped — the assembly still returns a chain, never an error —
and when no `ToolDefinition` exists for the tool, the single-provider Host
chain is used. -/
theorem chain_assembly_maps_strategies (cfg : Config) (toolName : Str) :
    (∀ td, cfg.lookupTool toolName = some td →
        cfg.getToolProvider toolName =
          some (td.strategies.filterMap (strategyToSpec td toolName))) ∧
      (cfg.lookupTool toolName = none →
        getProvider cfg toolName = [ProviderSpec.host]) := by
  constructor
  · intro td htd
    unfold Config.getToolProvider
    rw [htd]
    have h := strategy_foldl_eq_filterMap td toolName td.strategies []
    rw [List.nil_append] at h
    exact congrArg some h
  · intro hnone
    unfold getProvider Config.getToolProvider
    rw [hnone]
    rfl

/-- A definition for tool `bt` declaring `["url", "host", "source",
"bogus"]` with a URL template and checksum but no git URL. -/
def tdMixed : ToolDefinition :=
  { name := "bt".data
    version := "1.0".data
    urlTemplate := some "https://x/{version}".data
    sha256 := some "ab".data
    gitUrl := none
    strategies := [ "url".data, "host".data, "source".data, "bogus".data ] }

/-- A config holding only `tdMixed` under its tool name. -/
def cfgMixed : Config := ⟨[("bt".data, tdMixed)]⟩

/-- Witness for C6: the mixed definition assembles, in declared order, to
`[Url, Host]` — `"source"` is dropped for its missing `git_url`, `"bogus"`
is dropped as unrecognized — and a tool without a definition falls back to
the Host-only chain. -/
theorem chain_assembly_maps_strategies_witness :
    cfgMixed.getToolProvider "bt".data =
        some [ProviderSpec.url "https://x/{version}".data (some "ab".data),
          ProviderSpec.host] ∧
      getProvider cfgMixed "other".data = [ProviderSpec.host] := by
  constructor
  · rw [(chain_assembly_maps_strategies cfgMixed "bt".data).1 tdMixed (by rfl)]
    rfl
  · exact (chain_assembly_maps_strategies cfgMixed "other".data).2 (by rfl)

/-- C10 — If a `ToolDefinition` exists for a tool, resolution never falls
back to the default Host-only chain: when every declared strategy is
dropped, chain assembly yields the empty chain and resolution fails with
`NotFound` for the tool (with no effects), even in a world where the tool
is on the system PATH and already installed in the cache. -/
theorem defined_tool_empty_chain_not_found (w : World) (cfg : Config)
    (tool version : Str) (offline : Bool) (td : ToolDefinition) (hostPath : FsPath)
    (hdef : cfg.lookupTool tool = some td)
    (hempty : cfg.getToolProvider tool = some [])
    (hwhich : w.whichTool tool = some hostPath)
    (hins : w.pathExists ((ToolCache.new w).getToolPath w.plat tool version) = true) :
    resolveToolPath w cfg tool version offline = (.error (.notFound tool), []) := by
  unfold resolveToolPath getProvider
  rw [hempty]
  rfl

/-- A concrete world for witnesses: Linux platform, the tool present on
the host PATH, every cache path reported as existing, downloads and
builds succeeding trivially. -/
def worldHostCached : World :=
  { plat := ⟨false, false, false⟩
    homeDir := [ "home".data ]
    pathExists := fun _ => true
    whichTool := fun _ => some [ "usr".data, "bin".data, "bt".data ]
    httpGet := fun _ => .error "net down".data
    copyFile := fun _ _ => .error "no copy".data
    copyBin := fun _ _ => .ok ()
    zstdDecode := fun b => .ok b
    writeFile := fun _ _ => .ok ()
    mkdirAll := fun _ => .ok ()
    setPerms := fun _ => .ok ()
    sha256 := fun b => b
    cargoStatus := fun _ _ _ => .ok true
    tempDir := [ "tmp".data ] }

/-- A definition whose single strategy `"url"` is dropped for its missing
`url_template`: its assembled chain is empty. -/
def tdAllDropped : ToolDefinition :=
  { name := "bt".data
    version := "1.0".data
    urlTemplate := none
    sha256 := none
    gitUrl := none
    strategies := [ "url".data ] }

/-- A config holding only `tdAllDropped`. -/
def cfgAllDropped : Config := ⟨[("bt".data, tdAllDropped)]⟩

/-- Witness for C10: with a definition whose strategies are all dropped,
resolution yields `NotFound` although the tool is on the PATH and the
cache path exists. -/
theorem defined_tool_empty_chain_not_found_witness :
    resolveToolPath worldHostCached cfgAllDropped "bt".data "1.0".data false =
      (.error (.notFound "bt".data), []) :=
  defined_tool_empty_chain_not_found worldHostCached cfgAllDropped "bt".data "1.0".data
    false tdAllDropped [ "usr".data, "bin".data, "bt".data ] rfl rfl rfl rfl

/-! ### Cache path shape (C7) -/

/-- `set_extension` on a multi-component path only touches the final
component. -/
theorem setLastExtension_append_singleton (xs : FsPath) (x ext : Str) :
    setLastExtension (xs ++ [x]) ext = xs ++ [setExtension x ext] := by
  induction xs with
  | nil => rfl
  | cons a xs ih =>
    cases xs with
    | nil => rfl
    | cons b xs => simpa [setLastExtension] using ih

/-- C7 (amended) — `Cache.path` is a pure function of the cache root, tool
and version (the model performs no I/O): the path is always
`<cache-root>/<tool>/<version>/<final>` where `final` is the tool name on
non-Windows platforms, and on Windows is the tool name with
`set_extension("exe")` semantics — `.exe` is appended verbatim only when
the tool name has no extension of its own; an existing extension is
replaced instead. -/
theorem cache_path_shape (c : ToolCache) (plat : Plat) (tool version : Str) :
    (plat.windows = false →
        c.getToolPath plat tool version = c.baseDir ++ [tool, version, tool]) ∧
      (plat.windows = true →
        c.getToolPath plat tool version =
          c.baseDir ++ [tool, version, setExtension tool "exe".data]) ∧
      (plat.windows = true → fileStem tool = tool →
        c.getToolPath plat tool version =
          c.baseDir ++ [tool, version, tool ++ '.' :: "exe".data]) := by
  refine ⟨fun hw => ?_, fun hw => ?_, fun hw hstem => ?_⟩
  · simp [ToolCache.getToolPath, hw]
  · have : c.baseDir ++ [tool, version, tool] =
        (c.baseDir ++ [tool, version]) ++ [tool] := by simp
    simp only [ToolCache.getToolPath, hw, if_pos, this,
      setLastExtension_append_singleton]
    simp
  · have h2 : c.getToolPath plat tool version =
        c.baseDir ++ [tool, version, setExtension tool "exe".data] := by
      have : c.baseDir ++ [tool, version, tool] =
          (c.baseDir ++ [tool, version]) ++ [tool] := by simp
      simp only [ToolCache.getToolPath, hw, if_pos, this,
        setLastExtension_append_singleton]
      simp
    rw [h2]
    have : setExtension tool "exe".data = tool ++ '.' :: "exe".data := by
      unfold setExtension
      rw [hstem]
      rfl
    rw [this]

/-- Witness for C7: on Windows the cached `buck2` binary resolves to
`<root>/buck2/1.0/buck2.exe`. -/
theorem cache_path_shape_witness :
    ToolCache.getToolPath ⟨[ "root".data ]⟩ ⟨true, false, false⟩ "buck2".data "1.0".data =
      [ "root".data, "buck2".data, "1.0".data, "buck2.exe".data ] := by
  have h := (cache_path_shape ⟨[ "root".data ]⟩ ⟨true, false, false⟩ "buck2".data
    "1.0".data).2.2 rfl (by decide)
  rw [h]
  decide

/-- Counterexample for C7 as stated: on Windows a tool name that already
contains a dot does not get `.exe` appended — its final dot-suffix is
replaced — so the path is not `<root>/<tool>/<version>/<tool>.exe`. -/
theorem cache_path_counterexample :
    ToolCache.getToolPath ⟨[]⟩ ⟨true, false, false⟩ "a.b".data "1".data =
        [ "a.b".data, "1".data, "a.exe".data ] ∧
      ToolCache.getToolPath ⟨[]⟩ ⟨true, false, false⟩ "a.b".data "1".data ≠
        [ "a.b".data, "1".data, "a.b.exe".data ] := by
  exact ⟨by decide, by decide⟩

/-! ### Cache preference (C3) -/

/-- C3 (amended) — The Url and Source providers prefer an already-cached
copy: when `Cache.is_installed(tool, version)` holds as they run, they
return the cache path immediately, with no network access, build, or
write (empty effect trace).  The Host provider, by contrast, consults
only the system search path, so a chain that places Host before Url
returns the host copy even when a cached copy exists (see the
counterexample). -/
theorem provider_cache_short_circuit (w : World) (up : UrlSpec) (cs : CargoSpec)
    (tool version : Str) (cache : ToolCache) (offline : Bool)
    (hins : w.pathExists (cache.getToolPath w.plat tool version) = true) :
    urlProvide w up tool version ⟨offline, cache⟩ =
        (.ok (cache.getToolPath w.plat tool version), []) ∧
      cargoProvide w cs tool version ⟨offline, cache⟩ =
        (.ok (cache.getToolPath w.plat tool version), []) := by
  constructor
  · simp [urlProvide, ToolCache.isInstalled, hins]
  · simp [cargoProvide, ToolCache.isInstalled, hins]

/-- Witness for C3 (amended): with the cache path reported as existing,
both the Url and the Source provider return it untouched. -/
theorem provider_cache_short_circuit_witness :
    urlProvide worldHostCached ⟨ "https://x/{version}".data, none⟩ "bt".data "1.0".data
        ⟨false, ⟨[ "cr".data ]⟩⟩ =
      (.ok ((⟨[ "cr".data ]⟩ : ToolCache).getToolPath worldHostCached.plat
        "bt".data "1.0".data), []) ∧
      cargoProvide worldHostCached ⟨ "https://g/r".data, "bt".data⟩ "bt".data "1.0".data
          ⟨false, ⟨[ "cr".data ]⟩⟩ =
        (.ok ((⟨[ "cr".data ]⟩ : ToolCache).getToolPath worldHostCached.plat
          "bt".data "1.0".data), []) :=
  provider_cache_short_circuit worldHostCached ⟨ "https://x/{version}".data, none⟩
    ⟨ "https://g/r".data, "bt".data⟩ "bt".data "1.0".data ⟨[ "cr".data ]⟩ false rfl

/-- Counterexample for C3 as stated: in a world where the tool is both
installed in the cache and present on the system PATH, a resolution whose
chain is the (default) Host-only chain returns the system-PATH copy, not
the cache path, although `is_installed` held when resolution started. -/
theorem resolution_prefers_host_over_cache_counterexample :
    (ToolCache.new worldHostCached).isInstalled worldHostCached "bt".data "1.0".data =
        true ∧
      resolveToolPath worldHostCached ⟨[]⟩ "bt".data "1.0".data false =
        (.ok [ "usr".data, "bin".data, "bt".data ], []) ∧
      [ "usr".data, "bin".data, "bt".data ] ≠
        (ToolCache.new worldHostCached).getToolPath worldHostCached.plat
          "bt".data "1.0".data := by
  exact ⟨rfl, rfl, by decide⟩

/-! ### Url offline gate (C5) and missing build toolchain (C9) -/

/-- A concrete world for download witnesses: nothing cached, no host
tools, HTTP succeeding with status 200 and the single body byte `0xab`,
whose (oracle) SHA-256 digest is again `[0xab]`, hex-encoded `"ab"`. -/
def worldDownload : World :=
  { plat := ⟨false, false, false⟩
    homeDir := [ "home".data ]
    pathExists := fun _ => false
    whichTool := fun _ => none
    httpGet := fun _ => .ok ⟨200, [171]⟩
    copyFile := fun _ _ => .error "no copy".data
    copyBin := fun _ _ => .ok ()
    zstdDecode := fun b => .ok b
    writeFile := fun _ _ => .ok ()
    mkdirAll := fun _ => .ok ()
    setPerms := fun _ => .ok ()
    sha256 := fun _ => [171]
    cargoStatus := fun _ _ _ => .ok true
    tempDir := [ "tmp".data ] }

/-- C5 — With `context.offline` set and the tool not cached, a resolved
URL that does not use the `file://` scheme fails with a `StrategyFailure`
and an empty effect trace — no network request is attempted — while a
`file://` URL passes the gate: offline mode then behaves exactly as
online mode does. -/
theorem url_offline_gate (w : World) (up : UrlSpec) (tool version : Str)
    (cache : ToolCache)
    (hnotins : w.pathExists (cache.getToolPath w.plat tool version) = false) :
    (("file://".data).isPrefixOf (resolveUrl w.plat up.urlTemplate version) = false →
        urlProvide w up tool version ⟨true, cache⟩ =
          (.error (.strategyFailure "UrlProvider".data
            "Offline mode: cannot download from network".data), [])) ∧
      (("file://".data).isPrefixOf (resolveUrl w.plat up.urlTemplate version) = true →
        urlProvide w up tool version ⟨true, cache⟩ =
          urlProvide w up tool version ⟨false, cache⟩) := by
  constructor
  · intro hscheme
    simp [urlProvide, ToolCache.isInstalled, hnotins, hscheme]
  · intro hscheme
    simp [urlProvide, ToolCache.isInstalled, hnotins, hscheme]

/-- Witness for C5: offline resolution of an `https://` template fails
with the offline strategy failure and no events, while a `file://`
template behaves as it does online. -/
theorem url_offline_gate_witness :
    urlProvide worldDownload ⟨ "https://h/{version}".data, none⟩ "t".data "1".data
        ⟨true, ⟨[ "cr".data ]⟩⟩ =
      (.error (.strategyFailure "UrlProvider".data
        "Offline mode: cannot download from network".data), []) ∧
      urlProvide worldDownload ⟨ "file:///s".data, none⟩ "t".data "1".data
          ⟨true, ⟨[ "cr".data ]⟩⟩ =
        urlProvide worldDownload ⟨ "file:///s".data, none⟩ "t".data "1".data
          ⟨false, ⟨[ "cr".data ]⟩⟩ :=
  ⟨(url_offline_gate worldDownload ⟨ "https://h/{version}".data, none⟩ "t".data "1".data
      ⟨[ "cr".data ]⟩ rfl).1 (by decide),
    (url_offline_gate worldDownload ⟨ "file:///s".data, none⟩ "t".data "1".data
      ⟨[ "cr".data ]⟩ rfl).2 (by decide)⟩

/-- C9 — When the tool is not cached and `cargo` is absent from the host,
the Source provider fails immediately with a `StrategyFailure` naming the
missing toolchain (`"Cargo not found"`), with an empty effect trace: no
build is attempted and nothing is written into the cache. -/
theorem cargo_missing_toolchain_immediate_failure (w : World) (cs : CargoSpec)
    (tool version : Str) (cache : ToolCache) (offline : Bool)
    (hnotins : w.pathExists (cache.getToolPath w.plat tool version) = false)
    (hcargo : w.whichTool "cargo".data = none) :
    cargoProvide w cs tool version ⟨offline, cache⟩ =
      (.error (.strategyFailure "CargoBuildProvider".data "Cargo not found".data), []) := by
  simp [cargoProvide, ToolCache.isInstalled, hnotins, hcargo]

/-- Witness for C9: a concrete cargo-less world produces exactly the
`"Cargo not found"` strategy failure with no effects. -/
theorem cargo_missing_toolchain_immediate_failure_witness :
    cargoProvide worldDownload ⟨ "https://g/r".data, "t".data⟩ "t".data "1".data
        ⟨false, ⟨[ "cr".data ]⟩⟩ =
      (.error (.strategyFailure "CargoBuildProvider".data "Cargo not found".data), []) :=
  cargo_missing_toolchain_immediate_failure worldDownload ⟨ "https://g/r".data, "t".data⟩
    "t".data "1".data ⟨[ "cr".data ]⟩ false rfl rfl

/-! ### Checksum verification (C4) -/

/-- A successful network fetch: no `file://` scheme, a 2xx response,
the (possibly zstd-decoded) bytes written to the destination. -/
theorem fetchBytes_net_ok (w : World) (url : Str) (dest : FsPath) (resp : Http)
    (bytes : List Nat)
    (hnotfile : ("file://".data).isPrefixOf url = false)
    (hget : w.httpGet url = .ok resp)
    (hst : isSuccessStatus resp.status = true)
    (hbytes : (if (".zst".data).isSuffixOf url
      then w.zstdDecode resp.body else .ok resp.body) = .ok bytes)
    (hwrite : w.writeFile dest bytes = .ok ()) :
    fetchBytes w url dest = (.ok bytes, [.netGet url, .wroteFile dest]) := by
  unfold fetchBytes
  cases hz : (".zst".data).isSuffixOf url with
  | true =>
    rw [hz] at hbytes
    simp only [if_true] at hbytes
    simp [hnotfile, hget, hst, hz, hbytes, hwrite]
  | false =>
    rw [hz] at hbytes
    simp only [if_false, Bool.false_eq_true, Except.ok.injEq] at hbytes
    subst hbytes
    simp [hnotfile, hget, hst, hz, hwrite]

/-- C4 (amended) — With a declared sha256 digest and the tool not cached,
once the artifact has been fetched and written: if the lowercase hex
encoding of the computed digest is not exactly equal (string equality,
hence case-sensitive) to the declared digest, `provide` fails with a
strategy failure whose message names the mismatch, and is not treated as
success even though the file was written (the `wroteFile` event is in the
trace); if the encoded digest is exactly equal, `provide` succeeds with
the cache path, which was written. -/
theorem url_checksum_verification (w : World) (up : UrlSpec) (tool version : Str)
    (cache : ToolCache) (expected : Str) (resp : Http) (bytes : List Nat)
    (hsha : up.sha256 = some expected)
    (hnotins : w.pathExists (cache.getToolPath w.plat tool version) = false)
    (hnotfile : ("file://".data).isPrefixOf
      (resolveUrl w.plat up.urlTemplate version) = false)
    (hmkdir : w.mkdirAll (cache.getToolPath w.plat tool version).dropLast = .ok ())
    (hget : w.httpGet (resolveUrl w.plat up.urlTemplate version) = .ok resp)
    (hst : isSuccessStatus resp.status = true)
    (hbytes : (if (".zst".data).isSuffixOf (resolveUrl w.plat up.urlTemplate version)
      then w.zstdDecode resp.body else .ok resp.body) = .ok bytes)
    (hwrite : w.writeFile (cache.getToolPath w.plat tool version) bytes = .ok ())
    (hperm : w.plat.windows = true ∨
      w.setPerms (cache.getToolPath w.plat tool version) = .ok ()) :
    (hexEncode (w.sha256 bytes) ≠ expected →
        urlProvide w up tool version ⟨false, cache⟩ =
          (.error (.strategyFailure "UrlProvider".data
            ("Checksum mismatch: expected ".data ++ expected ++ ", got ".data ++
              hexEncode (w.sha256 bytes))),
            [.madeDir (cache.getToolPath w.plat tool version).dropLast,
              .netGet (resolveUrl w.plat up.urlTemplate version),
              .wroteFile (cache.getToolPath w.plat tool version)]) ∧
          "Checksum mismatch".data <+:
            ("Checksum mismatch: expected ".data ++ expected ++ ", got ".data ++
              hexEncode (w.sha256 bytes))) ∧
      (hexEncode (w.sha256 bytes) = expected →
        urlProvide w up tool version ⟨false, cache⟩ =
          (.ok (cache.getToolPath w.plat tool version),
            [.madeDir (cache.getToolPath w.plat tool version).dropLast,
              .netGet (resolveUrl w.plat up.urlTemplate version),
              .wroteFile (cache.getToolPath w.plat tool version)])) := by
  have hfetch := fetchBytes_net_ok w (resolveUrl w.plat up.urlTemplate version)
    (cache.getToolPath w.plat tool version) resp bytes hnotfile hget hst hbytes hwrite
  constructor
  · intro hne
    constructor
    · simp [urlProvide, ToolCache.isInstalled, ToolCache.install, urlDownloader,
        hnotins, hnotfile, hmkdir, hfetch, hsha, hne]
    · have hsplit : "Checksum mismatch: expected ".data =
          "Checksum mismatch".data ++ ": expected ".data := by decide
      refine ⟨": expected ".data ++ expected ++ ", got ".data ++
        hexEncode (w.sha256 bytes), ?_⟩
      rw [hsplit]
      simp [List.append_assoc]
  · intro heq
    rcases hperm with hw | hp
    · simp [urlProvide, ToolCache.isInstalled, ToolCache.install, urlDownloader,
        hnotins, hnotfile, hmkdir, hfetch, hsha, heq, hw]
    · simp [urlProvide, ToolCache.isInstalled, ToolCache.install, urlDownloader,
        hnotins, hnotfile, hmkdir, hfetch, hsha, heq, hp]

/-- Witness for C4: with the oracle digest hex-encoding to `"ab"`, a
declared digest `"ff"` yields the named checksum strategy failure (with
the file already written), and a declared digest `"ab"` yields success at
the cache path. -/
theorem url_checksum_verification_witness :
    urlProvide worldDownload ⟨ "https://h/t".data, some "ff".data⟩ "t".data "1".data
        ⟨false, ⟨[ "cr".data ]⟩⟩ =
      (.error (.strategyFailure "UrlProvider".data
        ("Checksum mismatch: expected ".data ++ "ff".data ++ ", got ".data ++ "ab".data)),
        [.madeDir [ "cr".data, "t".data, "1".data ], .netGet "https://h/t".data,
          .wroteFile [ "cr".data, "t".data, "1".data, "t".data ]]) ∧
      urlProvide worldDownload ⟨ "https://h/t".data, some "ab".data⟩ "t".data "1".data
          ⟨false, ⟨[ "cr".data ]⟩⟩ =
        (.ok [ "cr".data, "t".data, "1".data, "t".data ],
          [.madeDir [ "cr".data, "t".data, "1".data ], .netGet "https://h/t".data,
            .wroteFile [ "cr".data, "t".data, "1".data, "t".data ]]) := by
  constructor
  · exact ((url_checksum_verification worldDownload ⟨ "https://h/t".data, some "ff".data⟩
      "t".data "1".data ⟨[ "cr".data ]⟩ "ff".data ⟨200, [171]⟩ [171] rfl rfl rfl rfl rfl
      rfl rfl rfl (Or.inr rfl)).1 (by decide)).1
  · exact (url_checksum_verification worldDownload ⟨ "https://h/t".data, some "ab".data⟩
      "t".data "1".data ⟨[ "cr".data ]⟩ "ab".data ⟨200, [171]⟩ [171] rfl rfl rfl rfl rfl
      rfl rfl rfl (Or.inr rfl)).2 (by decide)

/-- Modelled from the spec: the "case-insensitive hex" comparison the
claim describes — two hex digests match when they are equal after ASCII
lowercasing. -/
def hexLowerAscii (s : Str) : Str :=
  s.map (fun c => if 'A' ≤ c ∧ c ≤ 'Z' then Char.ofNat (c.toNat + 32) else c)

/-- Counterexample for C4 as stated: a declared digest `"AB"` and a
computed digest hex-encoding to `"ab"` are equal case-insensitively, yet
`provide` fails with a checksum mismatch — the code compares the
lowercase hex encoding with the declared digest by exact string equality,
not case-insensitively. -/
theorem url_checksum_case_sensitivity_counterexample :
    hexLowerAscii "AB".data = hexLowerAscii "ab".data ∧
      urlProvide worldDownload ⟨ "https://h/t".data, some "AB".data⟩ "t".data "1".data
          ⟨false, ⟨[ "cr".data ]⟩⟩ =
        (.error (.strategyFailure "UrlProvider".data
          ("Checksum mismatch: expected ".data ++ "AB".data ++ ", got ".data ++ "ab".data)),
          [.madeDir [ "cr".data, "t".data, "1".data ], .netGet "https://h/t".data,
            .wroteFile [ "cr".data, "t".data, "1".data, "t".data ]]) := by
  exact ⟨by decide, by rfl⟩

/-! ### URL placeholder substitution (C8) -/

/-- `replaceGo` does not depend on the fuel once it covers the input
length. -/
theorem replaceGo_fuel_irrelevant (pat repl : Str) :
    ∀ (fuel₁ fuel₂ : Nat) (s : Str), s.length ≤ fuel₁ → s.length ≤ fuel₂ →
      replaceGo pat repl fuel₁ s = replaceGo pat repl fuel₂ s := by
  intro fuel₁
  induction fuel₁ with
  | zero =>
    intro fuel₂ s hs₁ _
    have : s = [] := List.length_eq_zero.mp (Nat.le_zero.mp hs₁)
    subst this
    cases fuel₂ <;> rfl
  | succ f ih =>
    intro fuel₂ s hs₁ hs₂
    cases s with
    | nil => cases fuel₂ <;> rfl
    | cons a rest =>
      cases fuel₂ with
      | zero => exact absurd hs₂ (by simp)
      | succ f₂ =>
        simp only [List.length_cons] at hs₁ hs₂
        simp only [replaceGo]
        by_cases hcond : pat ≠ [] ∧ pat.isPrefixOf (a :: rest)
        · rw [if_pos hcond, if_pos hcond]
          have hplen : 1 ≤ pat.length := List.length_pos.mpr hcond.1
          have hdrop : ((a :: rest).drop pat.length).length ≤ f := by
            simp only [List.length_drop, List.length_cons]
            omega
          have hdrop₂ : ((a :: rest).drop pat.length).length ≤ f₂ := by
            simp only [List.length_drop, List.length_cons]
            omega
          rw [ih f₂ _ hdrop hdrop₂]
        · rw [if_neg hcond, if_neg hcond]
          have hr : rest.length ≤ f := by omega
          have hr₂ : rest.length ≤ f₂ := by omega
          rw [ih f₂ rest hr hr₂]

/-- Unfolding `replaceAll` at a match: the pattern is consumed and
replaced. -/
theorem replaceAll_cons_match (pat repl s : Str) (hpat : pat ≠ [])
    (hpfx : pat.isPrefixOf s = true) :
    replaceAll pat repl s = repl ++ replaceAll pat repl (s.drop pat.length) := by
  cases s with
  | nil =>
    cases pat with
    | nil => exact absurd rfl hpat
    | cons p ps => simp [List.isPrefixOf] at hpfx
  | cons a rest =>
    show replaceGo pat repl (rest.length + 1) (a :: rest) = _
    rw [replaceGo]
    rw [if_pos ⟨hpat, hpfx⟩]
    congr 1
    have hplen : 1 ≤ pat.length := List.length_pos.mpr hpat
    exact replaceGo_fuel_irrelevant pat repl rest.length _ _
      (by simp only [List.length_drop, List.length_cons]; omega) le_rfl

/-- Unfolding `replaceAll` at a non-match: the head character passes
through. -/
theorem replaceAll_cons_nomatch (pat repl : Str) (a : Char) (rest : Str)
    (hpfx : pat.isPrefixOf (a :: rest) = false) :
    replaceAll pat repl (a :: rest) = a :: replaceAll pat repl rest := by
  show replaceGo pat repl (rest.length + 1) (a :: rest) = _
  rw [replaceGo]
  rw [if_neg (by simp [hpfx])]
  rfl

/-- Pieces of a string interleaved with a separator (the shape of a
string around the non-overlapping occurrences of a pattern). -/
def joinWith (sep : Str) : List Str → Str
  | [] => []
  | [p] => p
  | p :: ps => p ++ sep ++ joinWith sep ps

/-- Prepending a character to the head piece prepends it to the join. -/
theorem joinWith_cons_head (sep : Str) (a : Char) (h : Str) (t : List Str) :
    joinWith sep ((a :: h) :: t) = a :: joinWith sep (h :: t) := by
  cases t with
  | nil => rfl
  | cons x xs => simp [joinWith]

/-- The join of a nonempty piece list with a leading empty piece. -/
theorem joinWith_nil_head (sep : Str) (h : Str) (t : List Str) :
    joinWith sep ([] :: h :: t) = sep ++ joinWith sep (h :: t) := by
  simp [joinWith]

/-- Structure theorem for `replaceAll`: the input splits into pieces
around the replaced occurrences of the pattern — the output is the same
pieces joined with the replacement; no piece contains the pattern, the
head piece is a prefix of the input and every piece is an infix of it. -/
theorem replaceAll_decomp (pat repl : Str) (hpat : pat ≠ []) (s : Str) :
    ∃ (h : Str) (t : List Str),
      s = joinWith pat (h :: t) ∧
        replaceAll pat repl s = joinWith repl (h :: t) ∧
        h <+: s ∧ (∀ p ∈ h :: t, p <:+: s) ∧
        (∀ p ∈ h :: t, ¬ pat <:+: p) := by
  suffices H : ∀ (n : Nat) (s : Str), s.length ≤ n →
      ∃ (h : Str) (t : List Str),
        s = joinWith pat (h :: t) ∧
          replaceAll pat repl s = joinWith repl (h :: t) ∧
          h <+: s ∧ (∀ p ∈ h :: t, p <:+: s) ∧
          (∀ p ∈ h :: t, ¬ pat <:+: p) by
    exact H s.length s le_rfl
  intro n
  induction n with
  | zero =>
    intro s hs
    have hnil : s = [] := List.length_eq_zero.mp (Nat.le_zero.mp hs)
    subst hnil
    refine ⟨[], [], rfl, rfl, ( List.nil_prefix), ?_, ?_⟩
    · intro p hp
      rw [List.mem_singleton] at hp
      subst hp
      exact List.infix_rfl
    · intro p hp
      rw [List.mem_singleton] at hp
      subst hp
      rw [List.infix_nil]
      exact hpat
  | succ n ih =>
    intro s hs
    by_cases hpfx : pat.isPrefixOf s = true
    · -- a match at the front: emit an empty piece and recurse past it
      have hpre : pat <+: s := List.isPrefixOf_iff_prefix.mp hpfx
      have hplen : 1 ≤ pat.length := List.length_pos.mpr hpat
      have hsplit : pat ++ s.drop pat.length = s :=
        List.prefix_iff_eq_append.mp hpre
      have hdroplen : (s.drop pat.length).length ≤ n := by
        rw [List.length_drop]
        have : pat.length ≤ s.length := hpre.length_le
        omega
      obtain ⟨h', t', heq', hrep', hpre', hinf', hnop'⟩ := ih (s.drop pat.length) hdroplen
      refine ⟨[], h' :: t', ?_, ?_, ( List.nil_prefix), ?_, ?_⟩
      · rw [joinWith_nil_head, ← heq', hsplit]
      · rw [replaceAll_cons_match pat repl s hpat hpfx, hrep', joinWith_nil_head]
      · intro p hp
        rw [List.mem_cons] at hp
        rcases hp with hp | hp
        · subst hp
          exact ( List.nil_prefix).isInfix
        · have : p <:+: s.drop pat.length := hinf' p hp
          exact this.trans (List.drop_suffix pat.length s).isInfix
      · intro p hp
        rw [List.mem_cons] at hp
        rcases hp with hp | hp
        · subst hp
          rw [List.infix_nil]
          exact hpat
        · exact hnop' p hp
    · -- no match at the front: the head character extends the head piece
      cases s with
      | nil =>
        refine ⟨[], [], rfl, rfl, ( List.nil_prefix), ?_, ?_⟩
        · intro p hp
          rw [List.mem_singleton] at hp
          subst hp
          exact List.infix_rfl
        · intro p hp
          rw [List.mem_singleton] at hp
          subst hp
          rw [List.infix_nil]
          exact hpat
      | cons a rest =>
        have hrest : rest.length ≤ n := by
          simp only [List.length_cons] at hs
          omega
        obtain ⟨h', t', heq', hrep', hpre', hinf', hnop'⟩ := ih rest hrest
        have hpfxF : pat.isPrefixOf (a :: rest) = false := by
          cases hh : pat.isPrefixOf (a :: rest)
          · rfl
          · exact absurd hh hpfx
        refine ⟨a :: h', t', ?_, ?_, ?_, ?_, ?_⟩
        · rw [joinWith_cons_head, ← heq']
        · rw [replaceAll_cons_nomatch pat repl a rest hpfxF, hrep', joinWith_cons_head]
        · exact List.cons_prefix_cons.mpr ⟨rfl, hpre'⟩
        · intro p hp
          rw [List.mem_cons] at hp
          rcases hp with hp | hp
          · subst hp
            exact (List.cons_prefix_cons.mpr ⟨rfl, hpre'⟩).isInfix
          · exact (hinf' p (List.mem_cons_of_mem h' hp)).trans
              (List.infix_cons List.infix_rfl)
        · intro p hp
          rw [List.mem_cons] at hp
          rcases hp with hp | hp
          · subst hp
            intro hbad
            rcases List.infix_cons_iff.mp hbad with hb | hb
            · have : pat <+: a :: rest :=
                hb.trans (List.cons_prefix_cons.mpr ⟨rfl, hpre'⟩)
              rw [← List.isPrefixOf_iff_prefix] at this
              exact absurd this hpfx
            · exact hnop' h' (List.mem_cons_self h' t') hb
          · exact hnop' p (List.mem_cons_of_mem h' hp)

/-- An occurrence of a pattern whose first character does not occur in
`rl` cannot start inside `rl`: any occurrence in `rl ++ X` lies in `X`. -/
theorem infix_append_left_elim (hc : Char) (pr rl X : Str) (hhc : hc ∉ rl)
    (h : (hc :: pr) <:+: (rl ++ X)) : (hc :: pr) <:+: X := by
  induction rl with
  | nil => simpa using h
  | cons r rs ih =>
    rcases List.infix_cons_iff.mp (by simpa using h) with hb | hb
    · have := (List.cons_prefix_cons.mp hb).1
      exact absurd (this ▸ List.mem_cons_self r rs) hhc
    · exact ih (fun hmem => hhc (List.mem_cons_of_mem r hmem)) hb

/-- Junction elimination: an occurrence of the pattern
`hc :: (mid ++ [lc])` in `p ++ repl ++ X` must lie entirely in `X` when
the piece `p` contains no occurrence, the boundary characters `hc`, `lc`
do not occur in `repl`, and `repl` is not an infix of `mid` (so no
occurrence can straddle the inserted `repl`). -/
theorem infix_piece_repl_elim (hc lc : Char) (mid repl : Str)
    (hhc : hc ∉ repl) (hlc : lc ∉ repl) (hmid : ¬ repl <:+: mid) :
    ∀ (p X : Str), ¬ (hc :: (mid ++ [lc])) <:+: p →
      (hc :: (mid ++ [lc])) <:+: (p ++ (repl ++ X)) →
      (hc :: (mid ++ [lc])) <:+: X := by
  intro p
  induction p with
  | nil =>
    intro X _ h
    exact infix_append_left_elim hc (mid ++ [lc]) repl X hhc (by simpa using h)
  | cons a p' ih =>
    intro X hp h
    rcases List.infix_cons_iff.mp (by simpa using h) with hb | hb
    · obtain ⟨hca, hpm⟩ := List.cons_prefix_cons.mp hb
      subst hca
      have hp' : ¬ (hc :: (mid ++ [lc])) <+: (hc :: p') := fun hbad => hp hbad.isInfix
      rcases ( List.prefix_or_prefix_of_prefix hpm
          (List.prefix_append p' (repl ++ X))) with hc1 | hc1
      · exact absurd (List.cons_prefix_cons.mpr ⟨rfl, hc1⟩) hp'
      · obtain ⟨u, hu⟩ := hc1
        have hupfx : u <+: (repl ++ X) := by
          rw [← hu] at hpm
          exact (List.prefix_append_right_inj p').mp hpm
        rcases List.eq_nil_or_concat u with hu0 | ⟨L, lc', hu0⟩
        · subst hu0
          rw [List.append_nil] at hu
          exact absurd (hu ▸ List.prefix_rfl : (mid ++ [lc]) <+: p')
            (fun hbad => hp' (List.cons_prefix_cons.mpr ⟨rfl, hbad⟩))
        · subst hu0
          rw [List.concat_eq_append, ← List.append_assoc] at hu
          have hlast := congrArg List.getLast? hu
          rw [List.getLast?_concat, List.getLast?_concat] at hlast
          have hlc' : lc' = lc := Option.some.inj hlast
          rw [hlc'] at hu
          have hmidL : p' ++ L = mid := List.append_cancel_right hu
          rw [List.concat_eq_append, hlc'] at hupfx
          rcases ( List.prefix_or_prefix_of_prefix hupfx
              (List.prefix_append repl X)) with hc2 | hc2
          · have : lc ∈ repl :=
              hc2.subset (List.mem_append_right L (List.mem_singleton.mpr rfl))
            exact absurd this hlc
          · obtain ⟨w, hw⟩ := hc2
            rcases List.eq_nil_or_concat w with hw0 | ⟨W, b', hw0⟩
            · subst hw0
              rw [List.append_nil] at hw
              have : lc ∈ repl := by
                rw [hw]
                exact List.mem_append_right L (List.mem_singleton.mpr rfl)
              exact absurd this hlc
            · subst hw0
              rw [List.concat_eq_append, ← List.append_assoc] at hw
              have hlast₂ := congrArg List.getLast? hw
              rw [List.getLast?_concat, List.getLast?_concat] at hlast₂
              have hb' : b' = lc := Option.some.inj hlast₂
              rw [hb'] at hw
              have hLW : repl ++ W = L := List.append_cancel_right hw
              have : repl <:+: mid := by
                refine ⟨p', W, ?_⟩
                rw [← hmidL, ← hLW]
                simp [List.append_assoc]
              exact absurd this hmid
    · exact ih X (fun hbad => hp (List.infix_cons hbad)) hb

/-- No occurrence of the pattern `hc :: (mid ++ [lc])` survives in pieces
joined with `repl` when no piece contains one, the boundary characters do
not occur in `repl`, and `repl` does not fit inside `mid`. -/
theorem joinWith_no_occurrence (hc lc : Char) (mid repl : Str)
    (hhc : hc ∉ repl) (hlc : lc ∉ repl) (hmid : ¬ repl <:+: mid) :
    ∀ L : List Str, (∀ p ∈ L, ¬ (hc :: (mid ++ [lc])) <:+: p) →
      ¬ (hc :: (mid ++ [lc])) <:+: joinWith repl L := by
  intro L
  induction L with
  | nil =>
    intro _ hbad
    exact absurd (List.infix_nil.mp hbad) (by simp)
  | cons p ps ih =>
    intro hL hbad
    cases ps with
    | nil =>
      exact hL p (List.mem_singleton.mpr rfl) (by simpa [joinWith] using hbad)
    | cons q t =>
      have hshape : joinWith repl (p :: q :: t) =
          p ++ (repl ++ joinWith repl (q :: t)) := by
        simp [joinWith, List.append_assoc]
      rw [hshape] at hbad
      have hres := infix_piece_repl_elim hc lc mid repl hhc hlc hmid p
        (joinWith repl (q :: t)) (hL p (List.mem_cons_self p (q :: t))) hbad
      exact ih (fun r hr => hL r (List.mem_cons_of_mem p hr)) hres

/-- The four platform identifiers contain no brace and do not fit inside
the placeholder words `version` or `platform`. -/
theorem platformId_props (plat : Plat) :
    '{' ∉ platformId plat ∧ '}' ∉ platformId plat ∧
      ¬ platformId plat <:+: "version".data ∧
      ¬ platformId plat <:+: "platform".data := by
  rcases plat with ⟨w, m, ar⟩
  cases m <;> cases w <;> cases ar <;> exact (by decide)

/-- C8 (amended) — `resolve_url` substitutes `{version}` with the
requested version and `{platform}` with exactly one of four platform
identifiers chosen by the host OS and CPU architecture (macOS/ARM64 →
`aarch64-apple-darwin`, macOS/other → `x86_64-apple-darwin`,
Windows → `x86_64-pc-windows-msvc`, anything else →
`x86_64-unknown-linux-musl`); provided the version string contains no
brace character and is not a fragment of the literal word `version`, the
resolved URL contains no remaining `{version}` or `{platform}`
placeholder (without that proviso a placeholder can survive — see the
counterexample). -/
theorem resolve_url_substitution (plat : Plat) (tmpl version : Str)
    (h1 : '{' ∉ version) (h2 : '}' ∉ version)
    (h3 : ¬ version <:+: "version".data) :
    platformId plat ∈ [ "aarch64-apple-darwin".data, "x86_64-apple-darwin".data,
        "x86_64-pc-windows-msvc".data, "x86_64-unknown-linux-musl".data ] ∧
      (plat.macos = true → plat.aarch64 = true →
        platformId plat = "aarch64-apple-darwin".data) ∧
      (plat.macos = true → plat.aarch64 = false →
        platformId plat = "x86_64-apple-darwin".data) ∧
      (plat.macos = false → plat.windows = true →
        platformId plat = "x86_64-pc-windows-msvc".data) ∧
      (plat.macos = false → plat.windows = false →
        platformId plat = "x86_64-unknown-linux-musl".data) ∧
      ¬ "{version}".data <:+: resolveUrl plat tmpl version ∧
      ¬ "{platform}".data <:+: resolveUrl plat tmpl version := by
  obtain ⟨hbrace1, hbrace2, hpidv, hpidp⟩ := platformId_props plat
  have hformV : ("{version}".data : Str) = '{' :: ("version".data ++ ['}']) := by decide
  have hformP : ("{platform}".data : Str) = '{' :: ("platform".data ++ ['}']) := by decide
  have hvne : ("{version}".data : Str) ≠ [] := by decide
  have hpne : ("{platform}".data : Str) ≠ [] := by decide
  -- stage 1: after the {version} replacement, no {version} remains
  obtain ⟨hA, tA, _, hrepA, _, _, hnopA⟩ :=
    replaceAll_decomp "{version}".data version hvne tmpl
  have hs₁ : ¬ "{version}".data <:+: replaceAll "{version}".data version tmpl := by
    rw [hrepA, hformV]
    refine joinWith_no_occurrence '{' '}' "version".data version h1 h2 h3 (hA :: tA) ?_
    intro p hp
    rw [← hformV]
    exact hnopA p hp
  -- stage 2: the {platform} replacement
  obtain ⟨hB, tB, _, hrepB, _, hinfB, hnopB⟩ :=
    replaceAll_decomp "{platform}".data (platformId plat) hpne
      (replaceAll "{version}".data version tmpl)
  refine ⟨?_, ?_, ?_, ?_, ?_, ?_, ?_⟩
  · rcases plat with ⟨w, m, ar⟩
    cases m <;> cases w <;> cases ar <;> decide
  · intro hm ha
    simp [platformId, hm, ha]
  · intro hm ha
    simp [platformId, hm, ha]
  · intro hm hw
    simp [platformId, hm, hw]
  · intro hm hw
    simp [platformId, hm, hw]
  · show ¬ "{version}".data <:+:
      replaceAll "{platform}".data (platformId plat)
        (replaceAll "{version}".data version tmpl)
    rw [hrepB, hformV]
    refine joinWith_no_occurrence '{' '}' "version".data (platformId plat)
      hbrace1 hbrace2 hpidv (hB :: tB) ?_
    intro p hp
    rw [← hformV]
    exact fun hbad => hs₁ (hbad.trans (hinfB p hp))
  · show ¬ "{platform}".data <:+:
      replaceAll "{platform}".data (platformId plat)
        (replaceAll "{version}".data version tmpl)
    rw [hrepB, hformP]
    refine joinWith_no_occurrence '{' '}' "platform".data (platformId plat)
      hbrace1 hbrace2 hpidp (hB :: tB) ?_
    intro p hp
    rw [← hformP]
    exact hnopB p hp

/-- Witness for C8: on the Linux fallback platform, a benign version
string leaves no unresolved placeholder in the resolved URL, which is the
fully substituted one. -/
theorem resolve_url_substitution_witness :
    resolveUrl ⟨false, false, false⟩ "https://x/{platform}/b-{version}".data "1.0".data =
        "https://x/x86_64-unknown-linux-musl/b-1.0".data ∧
      ¬ "{version}".data <:+:
        resolveUrl ⟨false, false, false⟩ "https://x/{platform}/b-{version}".data "1.0".data ∧
      ¬ "{platform}".data <:+:
        resolveUrl ⟨false, false, false⟩ "https://x/{platform}/b-{version}".data "1.0".data := by
  have h := resolve_url_substitution ⟨false, false, false⟩
    "https://x/{platform}/b-{version}".data "1.0".data (by decide) (by decide) (by decide)
  exact ⟨by decide, h.2.2.2.2.2.1, h.2.2.2.2.2.2⟩

/-- Counterexample for C8 as stated: a version string that itself reads
`{version}` survives substitution verbatim, so the resolved URL still
contains an unresolved `{version}` placeholder. -/
theorem resolve_url_placeholder_counterexample :
    "{version}".data <:+:
      resolveUrl ⟨false, false, false⟩ "https://x/{version}".data "{version}".data :=
  ⟨ "https://x/".data, [], by decide⟩
